import Mathlib

/-!
Verification of the "potion" engine core of the ld-57 repository.

This file gives a shallow embedding of the entity movement/collision
subsystem (`src/potion/entity.py`), the entity list lifecycle
(`src/potion/entity_list.py`), the camera list (`src/potion/camera_list.py`)
and the camera scale computation (`src/potion/camera.py`), and proves or
refutes the specification claims about them.

Modelling conventions:
* Python ints are `ℤ` (or `ℕ` for counts / indices), Python floats are
  exact rationals `ℚ` (`divmod(t, 1)` on floats is `(⌊t⌋, t - ⌊t⌋)`).
* Python object identity is a `ℕ` id; mutable per-object attributes live in
  a `ℕ → ·` state map carried by the containing list structure.
* Lifecycle callbacks (`awake`, `start`, `on_activate`, `on_collision_begin`,
  ...) are no-ops on the base `Entity` class and are modelled as no-ops;
  `Log.error` is a side effect modelled, where a claim needs it, by a
  separate predicate mirroring the branch on which the source logs.
-/

set_option autoImplicit false

namespace LD57

/-! ### Geometry: `potion/utilities/pgeo.py`

`rect_intersects_rect(a, b)` is
`b.left() <= a.right() and a.left() <= b.right() and
 b.top() <= a.bottom() and a.top() <= b.bottom()`,
with `left = x`, `right = x + width - 1`, `top = y`,
`bottom = y + height - 1` (`potion/data_types/rect.py`). -/
def rectIntersectsRect (a_x a_y a_w a_h b_x b_y b_w b_h : ℤ) : Bool :=
  decide (b_x ≤ a_x + a_w - 1 ∧ a_x ≤ b_x + b_w - 1 ∧
          b_y ≤ a_y + a_h - 1 ∧ a_y ≤ b_y + b_h - 1)

/-! ### Movement model: `Entity.move_x` / `Entity.move_y`
(`potion/entity.py`, lines 307-364)

`Ent` carries the spatial state and the collision flags of one entity.
The collision *registration* side effects of a move (`_register_collision`
on both parties) touch only the per-frame collision sets, never positions
or remainders; they are modelled separately in the frame model further
below (see `CEnt`), so `Ent` omits the sets. -/
structure Ent where
  x : ℤ
  y : ℤ
  width : ℤ
  height : ℤ
  xr : ℚ
  yr : ℚ
  active : Bool
  collisions_enabled : Bool
  solid : Bool

/-- Model of `pmath.sign` (`potion/utilities/pmath.py`): `-1` if `n < 0` else `1`
(note: `sign(0) = 1`). -/
def psign (n : ℤ) : ℤ :=
  if n < 0 then -1 else 1

/-- Model of `Entity._check_collision_at(x, y, other)`: both parties must be active
and collision-enabled, then the entity's would-be bbox at `(x, y)` is
tested against `other` (default `Entity.intersects`, i.e. the bbox AABB
test `rect_intersects_rect(other.bbox(), Rect(x, y, w, h))`). -/
def checkCollisionAt (e : Ent) (x y : ℤ) (other : Ent) : Bool :=
  e.active && other.active && e.collisions_enabled && other.collisions_enabled &&
    rectIntersectsRect other.x other.y other.width other.height x y e.width e.height

/-- Model of `Entity._invoke_solid_collisions(x, y)`: it returns True iff
`_get_solid_collisions(x, y)` is non-empty: some *other* entity of the
scene (the `others` list excludes the mover itself, matching the
`entity == self: continue` skip) that is active and solid collides with
the mover at `(x, y)`.  (It also mutually registers each such pair; the
registration is modelled in the frame model.) -/
def solidCollisionAt (e : Ent) (others : List Ent) (x y : ℤ) : Bool :=
  others.any fun o => o.active && o.solid && checkCollisionAt e x y o

/-- The pixel-at-a-time walk of `Entity.move_x`: the `while move != 0`
loop runs `|move|` iterations (fuel `n`), stepping `direction` each time.
A solid collision at the candidate position zeroes the remainder and
stops the whole walk; otherwise the move is committed (non-solid
collisions are then registered, which does not affect position). -/
def walkX (others : List Ent) (dir : ℤ) : ℕ → Ent → Ent
  | 0, e => e
  | n + 1, e =>
    if solidCollisionAt e others (e.x + dir) e.y then
      { e with xr := 0 }
    else
      walkX others dir n { e with x := e.x + dir }

/-- The pixel-at-a-time walk of `Entity.move_y` (mirror of `walkX`). -/
def walkY (others : List Ent) (dir : ℤ) : ℕ → Ent → Ent
  | 0, e => e
  | n + 1, e =>
    if solidCollisionAt e others e.x (e.y + dir) then
      { e with yr := 0 }
    else
      walkY others dir n { e with y := e.y + dir }

/-- Model of `Entity.move_x(amount)`:
`x, xr = divmod(amount + self._xr, 1)`; `move = int(x)`; the remainder is
stored; `direction = pmath.sign(move)`; then the one-pixel walk runs
`|move|` times. -/
def move_x (others : List Ent) (e : Ent) (amount : ℚ) : Ent :=
  let t : ℚ := amount + e.xr
  let m : ℤ := ⌊t⌋
  walkX others (psign m) m.natAbs { e with xr := t - m }

/-- Model of `Entity.move_y(amount)` (mirror of `move_x`). -/
def move_y (others : List Ent) (e : Ent) (amount : ℚ) : Ent :=
  let t : ℚ := amount + e.yr
  let m : ℤ := ⌊t⌋
  walkY others (psign m) m.natAbs { e with yr := t - m }

/-- Witness for C1: a 1x1 mover at the origin, solid 1x1 blockers at
`(2, 0)` and `(0, 2)`, a single `move_x(5)` / `move_y(5)` call; the mover
ends at distance 1, adjacent to each blocker. -/
def wMover : Ent := ⟨0, 0, 1, 1, 0, 0, true, true, false⟩

def wBlockX : Ent := ⟨2, 0, 1, 1, 0, 0, true, true, true⟩

def wBlockY : Ent := ⟨0, 2, 1, 1, 0, 0, true, true, true⟩

def wOthers : List Ent := [wBlockX, wBlockY]

/-- The C10 scenario: a collision-enabled mover starting at `x = 0` with a
zero remainder, in a scene with no other entities, receiving successive
`move_x(0.3)` calls. -/
def subpxE : Ent := ⟨0, 0, 1, 1, 0, 0, true, true, false⟩

def subpx : ℕ → Ent
  | 0 => subpxE
  | n + 1 => move_x [] (subpx n) (3/10)

/-! ### EntityList model (`potion/entity_list.py`)

Entities are identified by a `ℕ` id (Python object identity; the default
`Entity.__eq__` compares identity, so `entity in list` is id membership).
The per-entity mutable attributes that `EntityList` reads or writes
(`_name`, `_active`, `_pausable`, `_started`, `_z`) live in a
`states : ℕ → EEnt` map inside the list state.  The Python `dict`
`_entity_map` is an association list with unique keys, the Python `set`
`_name_to_add` a list queried only for membership.  `entity._scene`
assignment and the lifecycle callbacks (`awake`/`on_activate`/`start`/
`on_deactivate`/`end`) are no-ops on the base class and are omitted,
except that `_active`/`_started` assignments are kept. -/
structure EEnt where
  name : String
  active : Bool
  pausable : Bool
  started : Bool
  z : ℤ

structure ELState where
  is_updating : Bool
  added_while_updating : List ℕ
  removed_while_updating : List ℕ
  entity_list : List ℕ
  entity_map : List (String × ℕ)
  entity_draw_list : List ℕ
  entity_draw_list_needs_sorting : Bool
  to_add : List ℕ
  to_remove : List ℕ
  name_to_add : List String
  to_activate : List ℕ
  to_deactivate : List ℕ
  states : ℕ → EEnt

/-- Python `dict.__setitem__`: replace the entry for the key, else append it. -/
def mapSet : List (String × ℕ) → String → ℕ → List (String × ℕ)
  | [], k, v => [(k, v)]
  | (k', v') :: rest, k, v =>
    if k' = k then (k, v) :: rest else (k', v') :: mapSet rest k v

/-- Python `dict.pop(key)`: drop the (unique) entry for the key.  (The Python
`pop` raises `KeyError` when the key is absent; that path is not reached
in the scenarios below.) -/
def mapPop : List (String × ℕ) → String → List (String × ℕ)
  | [], _ => []
  | (k', v') :: rest, k =>
    if k' = k then rest else (k', v') :: mapPop rest k

/-- Python `dict.get(key)`. -/
def mapGet (m : List (String × ℕ)) (k : String) : Option ℕ :=
  (m.find? fun p => p.1 == k).map (·.2)

/-- Assign `entity._active = b` in the state map. -/
def setActiveFlag (st : ℕ → EEnt) (i : ℕ) (b : Bool) : ℕ → EEnt :=
  fun j => if j = i then { st i with active := b } else st j

/-- Assign `entity._started = True` in the state map. -/
def setStartedFlag (st : ℕ → EEnt) (i : ℕ) : ℕ → EEnt :=
  fun j => if j = i then { st i with started := true } else st j

/-- Model of `EntityList.set_active`: drop the entity from the deactivate queue
(first occurrence, guarded), then queue activation if not yet queued. -/
def ELState.set_active (s : ELState) (i : ℕ) : ELState :=
  let td := s.to_deactivate.erase i
  if i ∈ s.to_activate then { s with to_deactivate := td }
  else { s with to_deactivate := td, to_activate := s.to_activate ++ [i] }

/-- Model of `EntityList.set_inactive` (mirror of `set_active`). -/
def ELState.set_inactive (s : ELState) (i : ℕ) : ELState :=
  let ta := s.to_activate.erase i
  if i ∈ s.to_deactivate then { s with to_activate := ta }
  else { s with to_activate := ta, to_deactivate := s.to_deactivate ++ [i] }

/-- Model of `EntityList.add`: buffer while a list-update pass is running; log an
error and drop the entity when its name is already in `_name_to_add`;
otherwise queue it unless the same object is already live or queued. -/
def ELState.add (s : ELState) (i : ℕ) : ELState :=
  if s.is_updating then
    { s with added_while_updating := s.added_while_updating ++ [i] }
  else if (s.states i).name ∈ s.name_to_add then
    s
  else if i ∉ s.entity_list ∧ i ∉ s.to_add then
    { s with to_add := s.to_add ++ [i],
             name_to_add := s.name_to_add ++ [(s.states i).name],
             entity_draw_list_needs_sorting := true }
  else s

/-- The branch of `EntityList.add` on which `Log.error` fires (duplicate
name detected): not buffering, and the name is in `_name_to_add`. -/
def addLogsError (s : ELState) (i : ℕ) : Bool :=
  !s.is_updating && decide ((s.states i).name ∈ s.name_to_add)

/-- Model of `EntityList.remove`: buffer while a list-update pass is running;
otherwise queue removal if the entity is live and not already queued. -/
def ELState.remove (s : ELState) (i : ℕ) : ELState :=
  if s.is_updating then
    { s with removed_while_updating := s.removed_while_updating ++ [i] }
  else if i ∈ s.entity_list ∧ i ∉ s.to_remove then
    { s with to_remove := s.to_remove ++ [i] }
  else s

/-- Insertion step of the draw-list sort: Python's stable `sort` with
`key=lambda e: e.z, reverse=True` orders by Z descending, entities with
equal Z keeping their relative order. -/
def insertZDesc (st : ℕ → EEnt) (i : ℕ) : List ℕ → List ℕ
  | [] => [i]
  | j :: l => if (st j).z ≤ (st i).z then i :: j :: l else j :: insertZDesc st i l

/-- Stable sort by Z descending (model of `list.sort(key=..., reverse=True)`). -/
def sortZDesc (st : ℕ → EEnt) (l : List ℕ) : List ℕ :=
  l.foldr (insertZDesc st) []

/-- Model of `EntityList.sort_draw_list`. -/
def ELState.sort_draw_list (s : ELState) : ELState :=
  { s with entity_draw_list := sortZDesc s.states s.entity_draw_list,
           entity_draw_list_needs_sorting := false }

/-- One iteration of the add-queue loop of `update_list`: append to the
live list and the draw list, set the name map entry, queue activation.
(`entity._scene = self._scene` is a no-op here; `awake` runs later.) -/
def addStep (t : ELState) (i : ℕ) : ELState :=
  ELState.set_active
    { t with entity_list := t.entity_list ++ [i],
             entity_draw_list := t.entity_draw_list ++ [i],
             entity_map := mapSet t.entity_map (t.states i).name i } i

/-- One iteration of the remove-queue loop of `update_list`.  NB the
source *appends* the removed entity to `_entity_draw_list`
(`entity_list.py` line 141) instead of removing it — modelled as
written. -/
def removeStep (t : ELState) (i : ℕ) : ELState :=
  ELState.set_inactive
    { t with entity_list := t.entity_list.erase i,
             entity_draw_list := t.entity_draw_list ++ [i],
             entity_map := mapPop t.entity_map (t.states i).name } i

/-- The add-queue loop of `update_list` (the `for entity in self._to_add`
loop that follows `awake` is the no-op `awake` calls). -/
def addPhase (s : ELState) : ELState :=
  s.to_add.foldl addStep s

/-- The remove-queue loop of `update_list`. -/
def removePhase (s : ELState) : ELState :=
  s.to_remove.foldl removeStep s

/-- The activate-queue loop: `entity._active = True; entity.on_activate()`. -/
def activatePhase (s : ELState) : ELState :=
  s.to_activate.foldl
    (fun t i => { t with states := setActiveFlag t.states i true }) s

/-- The `start` loop over the add queue: `entity.start()` (a no-op) and
`entity._started = True`. -/
def startPhase (s : ELState) : ELState :=
  s.to_add.foldl
    (fun t i => { t with states := setStartedFlag t.states i }) s

/-- The deactivate-queue loop: `entity._active = False; entity.on_deactivate()`. -/
def deactivatePhase (s : ELState) : ELState :=
  s.to_deactivate.foldl
    (fun t i => { t with states := setActiveFlag t.states i false }) s

/-- The `if self._entity_draw_list_needs_sorting: self.sort_draw_list()` step. -/
def maybeSortPhase (s : ELState) : ELState :=
  if s.entity_draw_list_needs_sorting then s.sort_draw_list else s

/-- Clear all queues and unset `_is_updating`. -/
def clearPhase (s : ELState) : ELState :=
  { s with to_add := [], to_remove := [], name_to_add := [],
           to_activate := [], to_deactivate := [], is_updating := false }

/-- Re-submit anything buffered in `_added_while_updating` /
`_removed_while_updating` through the public `add`/`remove`, then clear
the buffers. -/
def resubmitPhase (s : ELState) : ELState :=
  if s.added_while_updating.isEmpty && s.removed_while_updating.isEmpty then s
  else
    let t := s.added_while_updating.foldl ELState.add s
    let t := s.removed_while_updating.foldl ELState.remove t
    { t with added_while_updating := [], removed_while_updating := [] }

/-- Model of `EntityList.update_list`, step for step: set `_is_updating`, process
the add queue, the remove queue, the lifecycle loops (`awake` for added —
a no-op; `_active = True` + `on_activate` for the activate queue; `start`
+ `_started = True` for added; `_active = False` + `on_deactivate` for
the deactivate queue; `end` for removed — a no-op), sort the draw list if
flagged, clear all queues, unset `_is_updating`, and finally re-submit
anything buffered during the pass through the public `add`/`remove`. -/
def ELState.update_list (s0 : ELState) : ELState :=
  resubmitPhase (clearPhase (maybeSortPhase (deactivatePhase (startPhase
    (activatePhase (removePhase (addPhase { s0 with is_updating := true })))))))

/-- The entities whose `update()` runs in one `EntityList.update` pass:
the pass iterates the `active_entities()` generator over `_entity_list`
with the paused-and-pausable skip.  Neither `_entity_list` nor any
`_active` flag is mutated while the pass runs (an `add`/`remove`/activity
change requested from a callback only appends to a pending queue), so the
invoked entities are exactly this filter of the pass-start state. -/
def updateTargets (paused : Bool) (s : ELState) : List ℕ :=
  s.entity_list.filter fun i =>
    (s.states i).active && !(paused && (s.states i).pausable)

/-- A freshly constructed `EntityList` (all queues empty), over a given
entity state map. -/
def elInit (st : ℕ → EEnt) : ELState :=
  { is_updating := false, added_while_updating := [], removed_while_updating := [],
    entity_list := [], entity_map := [], entity_draw_list := [],
    entity_draw_list_needs_sorting := false, to_add := [], to_remove := [],
    name_to_add := [], to_activate := [], to_deactivate := [],
    states := st }

/-! #### Claim C2 — duplicate names after promotion (code bug)

`EntityList.add` only checks the candidate name against `_name_to_add`,
the set of names in the *pending add queue*, which `update_list` clears.
Once the first entity has been promoted into the live list, a second,
distinct entity with the same name passes the check: no error is logged,
both objects become live, and the `update_list` add loop silently
overwrites the `_entity_map` entry with the newcomer. -/
def stDup : ℕ → EEnt := fun _ => ⟨"a", true, true, false, 0⟩

/-- State after `add(e0); update_list()` — entity 0 (named "a") is live. -/
def sDup2 : ELState := ((elInit stDup).add 0).update_list

/-- State after then `add(e1); update_list()` with `e1` also named "a". -/
def sDup4 : ELState := (sDup2.add 1).update_list

/-! #### Claim C3 — removed entities are appended to the draw list (code bug)

The remove loop of `update_list` (`entity_list.py` lines 139-144) runs
`self._entity_draw_list.append(entity)` for each removed entity instead
of removing it, so the draw list accumulates a duplicate, never-pruned
entry for every removal. -/
def stRem : ℕ → EEnt := fun _ => ⟨"b", true, true, false, 0⟩

/-- State after `add(e0); update_list()` — entity 0 is live, drawn once. -/
def sRem2 : ELState := ((elInit stRem).add 0).update_list

/-- State after then `remove(e0); update_list()`. -/
def sRem4 : ELState := (sRem2.remove 0).update_list

/-! #### Claim C4 — draw list order -/
def stZ : ℕ → EEnt := fun i =>
  if i = 0 then ⟨"z5", true, true, false, 5⟩
  else if i = 1 then ⟨"zm3", true, true, false, -3⟩
  else ⟨"z0", true, true, false, 0⟩

/-- Three entities with Z values 5, -3, 0 added and promoted (the add
flags the draw list for sorting, which `update_list` then performs). -/
def sZ : ELState := ((((elInit stZ).add 0).add 1).add 2).update_list

def stW : ℕ → EEnt := fun i =>
  if i = 0 then ⟨"w0", true, true, false, 0⟩ else ⟨"w1", true, true, false, 0⟩

/-- A state with entity 0 live and all queues empty. -/
def sW : ELState := ((elInit stW).add 0).update_list

/-! ### CameraList model (`potion/camera_list.py`)

A camera's name and draw order are immutable while it sits in a list, so
cameras are modelled as plain values.  `CameraList.add` first runs
`_validate_name` and `_validate_draw_order`, each of which raises
`RuntimeError` on a duplicate among `self._camera_list + self._to_add`,
*before* any mutation; the result is the pair (new state, raised?), with
the state unchanged whenever `raised?` is true. -/
structure Cam where
  id : ℕ
  name : String
  draw_order : ℤ
deriving DecidableEq

structure CameraListState where
  camera_list : List Cam
  camera_map : List (String × Cam)
  needs_sorting : Bool
  to_add : List Cam
  to_remove : List Cam
  current : List Cam
  adding : List Cam
  removing : List Cam

/-- The condition on which `_validate_name` raises. -/
def dupName (s : CameraListState) (c : Cam) : Bool :=
  (s.camera_list ++ s.to_add).any fun c' => c.name == c'.name

/-- The condition on which `_validate_draw_order` raises. -/
def dupOrder (s : CameraListState) (c : Cam) : Bool :=
  (s.camera_list ++ s.to_add).any fun c' => c.draw_order == c'.draw_order

/-- Model of `CameraList.add`: validate name, validate draw order (each raising —
second component `true` — while the state is still untouched), then queue
the camera unless the same object is already present or queued. -/
def cameraListAdd (s : CameraListState) (c : Cam) : CameraListState × Bool :=
  if dupName s c then (s, true)
  else if dupOrder s c then (s, true)
  else if c ∉ s.current ∧ c ∉ s.adding then
    ({ s with to_add := s.to_add ++ [c], adding := s.adding ++ [c],
              needs_sorting := true }, false)
  else (s, false)

/-- Witness for C9: a concrete scene — a camera named "Main" with draw
order 0 in the list; adding a camera named "Main" (same name) raises and
leaves the state unchanged, adding a fresh "UI" camera with draw order
-1000 does not raise. -/
def camMain : Cam := ⟨0, "Main", 0⟩

def camMainDup : Cam := ⟨1, "Main", 5⟩

def camUI : Cam := ⟨2, "UI", -1000⟩

def camListW : CameraListState := ⟨[camMain], [("Main", camMain)], false, [], [], [camMain], [], []⟩

/-! ### Camera pixel-perfect scale (`potion/camera.py`,
`Camera._reset_render_targets`, lines 346-391)

`sx = viewport.width / resolution[0]`, `sy = viewport.height /
resolution[1]` (float division, modelled as exact rational division);
the resize mode picks the raw scale pair; with pixel-perfect scaling the
scales are floored and clamped up to 1. -/
inductive ResizeMode
  | rnone
  | rwidth
  | rheight
  | rfit
  | rfill
  | rdistort

/-- The scale pair computed by `_reset_render_targets` (`(scale_x,
scale_y)` just after the pixel-perfect clamp, i.e. the values stored into
`_scale_x` / `_scale_y`). -/
def resetScale (mode : ResizeMode) (pixel_perfect : Bool) (vw vh rw rh : ℚ) : ℚ × ℚ :=
  let sx : ℚ := vw / rw
  let sy : ℚ := vh / rh
  let p : ℚ × ℚ :=
    match mode with
    | .rnone => (1, 1)
    | .rwidth => (sx, sx)
    | .rheight => (sy, sy)
    | .rfit => (min sx sy, min sx sy)
    | .rfill => (max sx sy, max sx sy)
    | .rdistort => (sx, sy)
  if pixel_perfect then
    let fx : ℤ := ⌊p.1⌋
    let fy : ℤ := ⌊p.2⌋
    let fx : ℤ := if fx < 1 then 1 else fx
    let fy : ℤ := if fy < 1 then 1 else fy
    ((fx : ℚ), (fy : ℚ))
  else p

/-! ### Per-frame collision bookkeeping (`Entity._collisions_pre_update`,
`Entity._register_collision`, `Entity._collisions_post_update`, driven by
`EntityList.update`)

The world is a map `ℕ → CEnt` over entity ids, with `n` entities in the
scene (ids `0..n-1`).  One frame of `EntityList.update` is:

1. pre loop over the entity list: skip paused-and-pausable, else
   `collisions_last_frame := collisions_this_frame; collisions_this_frame := {}`;
2. the per-entity `update()` callbacks, whose only effect on the
   collision sets is through `move_x`/`move_y`/`move`, each of which
   calls `self._register_collision(other); other._register_collision(self)`
   for every detected pair — modelled as a list of mutually registered
   `(i, j)` pairs (positions here are the rest positions after all
   movement, which is what the post loop reads; registration itself does
   not read positions);
3. post loop: skip paused-and-pausable, else re-test every entity in
   `last - this` at the current rest position and re-add it on success
   (then fire stay/end callbacks, which do not change the sets). -/
structure CEnt where
  x : ℤ
  y : ℤ
  width : ℤ
  height : ℤ
  active : Bool
  collisions_enabled : Bool
  pausable : Bool
  thisFrame : Finset ℕ
  lastFrame : Finset ℕ

/-- Model of `Entity._check_collision_at(self.x, self.y, other)` between two base
entities at their current positions (the post-update re-test). -/
def checkAt (a b : CEnt) : Bool :=
  a.active && b.active && a.collisions_enabled && b.collisions_enabled &&
    rectIntersectsRect b.x b.y b.width b.height a.x a.y a.width a.height

/-- Model of `Entity._collisions_pre_update`. -/
def preUpdate (e : CEnt) : CEnt :=
  { e with lastFrame := e.thisFrame, thisFrame := ∅ }

/-- Model of `Entity._register_collision(other)`: no-op when the pair was already
handled this frame, else add it (and fire `on_collision_begin`, a no-op
on the base class). -/
def registerCollision (e : CEnt) (j : ℕ) : CEnt :=
  if j ∈ e.thisFrame then e else { e with thisFrame := insert j e.thisFrame }

/-- Point update of the world at one id. -/
def wupd (w : ℕ → CEnt) (i : ℕ) (f : CEnt → CEnt) : ℕ → CEnt :=
  fun j => if j = i then f (w j) else w j

/-- Mutual registration `self._register_collision(entity); entity._register_collision(self)` —
the always-mutual registration performed by `_invoke_solid_collisions`,
`_invoke_non_solid_collisions` and `move` for a detected pair. -/
def mutualRegister (w : ℕ → CEnt) (p : ℕ × ℕ) : ℕ → CEnt :=
  wupd (wupd w p.1 (fun e => registerCollision e p.2)) p.2
    (fun e => registerCollision e p.1)

/-- The collision-set effect of the update-callback phase: each detected
pair is mutually registered, in order. -/
def movePhase (w : ℕ → CEnt) (moves : List (ℕ × ℕ)) : ℕ → CEnt :=
  moves.foldl mutualRegister w

/-- The pre loop of `EntityList.update`. -/
def prePhase (paused : Bool) (n : ℕ) (w : ℕ → CEnt) : ℕ → CEnt :=
  (List.range n).foldl
    (fun w i => if paused && (w i).pausable then w else wupd w i preUpdate) w

/-- The set mutation of `Entity._collisions_post_update`: re-add every
entity of `last - this` that still collides at the current rest position
(the stay/end callbacks that follow do not change the sets). -/
def postBody (w : ℕ → CEnt) (e : CEnt) : CEnt :=
  { e with thisFrame :=
      e.thisFrame ∪ (e.lastFrame \ e.thisFrame).filter fun j => checkAt e (w j) = true }

/-- One iteration of the post loop (with the paused-and-pausable skip). -/
def postStep (paused : Bool) (w : ℕ → CEnt) (i : ℕ) : ℕ → CEnt :=
  if paused && (w i).pausable then w else wupd w i (postBody w)

/-- The post loop of `EntityList.update`. -/
def postPhase (paused : Bool) (n : ℕ) (w : ℕ → CEnt) : ℕ → CEnt :=
  (List.range n).foldl (postStep paused) w

/-- One frame of collision processing: pre loop, mutual registrations
from the update callbacks, post loop. -/
def frame (paused : Bool) (n : ℕ) (moves : List (ℕ × ℕ)) (w : ℕ → CEnt) : ℕ → CEnt :=
  postPhase paused n (movePhase (prePhase paused n w) moves)

/-- Symmetry of the per-frame collision sets over the `n` scene entities. -/
def SymmThis (n : ℕ) (w : ℕ → CEnt) : Prop :=
  ∀ i, i < n → ∀ j, j < n → j ∈ (w i).thisFrame → i ∈ (w j).thisFrame

instance symmThisDecidable (n : ℕ) (w : ℕ → CEnt) : Decidable (SymmThis n w) :=
  inferInstanceAs (Decidable (∀ i, i < n → ∀ j, j < n →
    j ∈ (w i).thisFrame → i ∈ (w j).thisFrame))

/-- The fields of an entity that the collision re-test reads (everything
except the two per-frame sets). -/
def StaticsEq (b b' : CEnt) : Prop :=
  b.x = b'.x ∧ b.y = b'.y ∧ b.width = b'.width ∧ b.height = b'.height ∧
    b.active = b'.active ∧ b.collisions_enabled = b'.collisions_enabled ∧
    b.pausable = b'.pausable

/-- Concrete paused-frame scenario: entity 0 is pausable and entity 1 is
not; they collided in the previous frame (symmetric sets `{1}` / `{0}`)
but are now at rest positions that no longer overlap.  In a paused frame
entity 0's bookkeeping is skipped entirely, so its stale set keeps 1
while entity 1's cleared set drops 0. -/
def cPausable : CEnt := ⟨0, 0, 1, 1, true, true, true, {1}, {1}⟩

def cMover : CEnt := ⟨10, 10, 1, 1, true, true, false, {0}, {0}⟩

def wPause : ℕ → CEnt := fun i => if i = 0 then cPausable else cMover

/-! ### Lemmas and claim theorems -/

/-- Swapping the two rectangles does not change the intersection test. -/
lemma rectIntersectsRect_comm (a_x a_y a_w a_h b_x b_y b_w b_h : ℤ) :
    rectIntersectsRect a_x a_y a_w a_h b_x b_y b_w b_h =
      rectIntersectsRect b_x b_y b_w b_h a_x a_y a_w a_h := by
  unfold rectIntersectsRect
  simp only [decide_eq_decide]
  tauto

/-! Changing only `x`, `xr`, `y` or `yr` of the mover does not change the
result of a solid-collision query (the query reads the candidate
coordinates and the mover's size/flags only). -/
lemma solidCollisionAt_set_x (e : Ent) (others : List Ent) (v p q : ℤ) :
    solidCollisionAt { e with x := v } others p q = solidCollisionAt e others p q := rfl

lemma solidCollisionAt_set_xr (e : Ent) (others : List Ent) (v : ℚ) (p q : ℤ) :
    solidCollisionAt { e with xr := v } others p q = solidCollisionAt e others p q := rfl

lemma solidCollisionAt_set_y (e : Ent) (others : List Ent) (v p q : ℤ) :
    solidCollisionAt { e with y := v } others p q = solidCollisionAt e others p q := rfl

lemma solidCollisionAt_set_yr (e : Ent) (others : List Ent) (v : ℚ) (p q : ℤ) :
    solidCollisionAt { e with yr := v } others p q = solidCollisionAt e others p q := rfl

/-- Core walk lemma: if the first solid blocker along the walk direction is
at step `k` (no blocker at steps `1..k-1`), and the walk has at least `k`
steps of fuel, then the walk stops with the mover exactly adjacent to the
blocker (`k - 1` committed steps) and a zeroed remainder. -/
lemma walkX_first_block (others : List Ent) (dir : ℤ) :
    ∀ (k n : ℕ) (e : Ent), 0 < k → k ≤ n →
      solidCollisionAt e others (e.x + dir * k) e.y = true →
      (∀ j : ℕ, j < k → 0 < j → solidCollisionAt e others (e.x + dir * j) e.y = false) →
      (walkX others dir n e).x = e.x + dir * ((k : ℤ) - 1) ∧
        (walkX others dir n e).xr = 0 := by
  intro k
  induction k with
  | zero => intro n e hk; omega
  | succ k ih =>
    intro n e _ hkn hb hf
    obtain ⟨n', rfl⟩ : ∃ n', n = n' + 1 := ⟨n - 1, by omega⟩
    by_cases hk0 : k = 0
    · subst hk0
      have hb1 : solidCollisionAt e others (e.x + dir) e.y = true := by
        simpa using hb
      simp [walkX, hb1]
    · have hstep : solidCollisionAt e others (e.x + dir) e.y = false := by
        have := hf 1 (by omega) (by omega)
        simpa using this
      have hrec := ih n' { e with x := e.x + dir } (by omega) (by omega)
      simp only [solidCollisionAt_set_x] at hrec
      have hb' : solidCollisionAt e others (e.x + dir + dir * k) e.y = true := by
        have : e.x + dir + dir * k = e.x + dir * (k + 1 : ℕ) := by push_cast; ring
        rw [this]; exact hb
      have hf' : ∀ j : ℕ, j < k → 0 < j →
          solidCollisionAt e others (e.x + dir + dir * j) e.y = false := by
        intro j hj hj0
        have : e.x + dir + dir * j = e.x + dir * (j + 1 : ℕ) := by push_cast; ring
        rw [this]
        exact hf (j + 1) (by omega) (by omega)
      have := hrec hb' hf'
      rw [show walkX others dir (n' + 1) e =
            walkX others dir n' { e with x := e.x + dir } by simp [walkX, hstep]]
      refine ⟨?_, this.2⟩
      rw [this.1]
      show e.x + dir + dir * ((k : ℤ) - 1) = e.x + dir * ((k : ℤ) + 1 - 1)
      ring

/-- Mirror of `walkX_first_block` for the Y axis. -/
lemma walkY_first_block (others : List Ent) (dir : ℤ) :
    ∀ (k n : ℕ) (e : Ent), 0 < k → k ≤ n →
      solidCollisionAt e others e.x (e.y + dir * k) = true →
      (∀ j : ℕ, j < k → 0 < j → solidCollisionAt e others e.x (e.y + dir * j) = false) →
      (walkY others dir n e).y = e.y + dir * ((k : ℤ) - 1) ∧
        (walkY others dir n e).yr = 0 := by
  intro k
  induction k with
  | zero => intro n e hk; omega
  | succ k ih =>
    intro n e _ hkn hb hf
    obtain ⟨n', rfl⟩ : ∃ n', n = n' + 1 := ⟨n - 1, by omega⟩
    by_cases hk0 : k = 0
    · subst hk0
      have hb1 : solidCollisionAt e others e.x (e.y + dir) = true := by
        simpa using hb
      simp [walkY, hb1]
    · have hstep : solidCollisionAt e others e.x (e.y + dir) = false := by
        have := hf 1 (by omega) (by omega)
        simpa using this
      have hrec := ih n' { e with y := e.y + dir } (by omega) (by omega)
      simp only [solidCollisionAt_set_y] at hrec
      have hb' : solidCollisionAt e others e.x (e.y + dir + dir * k) = true := by
        have : e.y + dir + dir * k = e.y + dir * (k + 1 : ℕ) := by push_cast; ring
        rw [this]; exact hb
      have hf' : ∀ j : ℕ, j < k → 0 < j →
          solidCollisionAt e others e.x (e.y + dir + dir * j) = false := by
        intro j hj hj0
        have : e.y + dir + dir * j = e.y + dir * (j + 1 : ℕ) := by push_cast; ring
        rw [this]
        exact hf (j + 1) (by omega) (by omega)
      have := hrec hb' hf'
      rw [show walkY others dir (n' + 1) e =
            walkY others dir n' { e with y := e.y + dir } by simp [walkY, hstep]]
      refine ⟨?_, this.2⟩
      rw [this.1]
      show e.y + dir + dir * ((k : ℤ) - 1) = e.y + dir * ((k : ℤ) + 1 - 1)
      ring

/-- Rewrite of `move_x` as the walk on the remainder-updated entity. -/
lemma move_x_eq_walk (others : List Ent) (e : Ent) (amount : ℚ) (m : ℤ)
    (hm : ⌊amount + e.xr⌋ = m) :
    move_x others e amount =
      walkX others (psign m) m.natAbs { e with xr := amount + e.xr - m } := by
  simp [move_x, hm]

/-- Rewrite of `move_y` as the walk on the remainder-updated entity. -/
lemma move_y_eq_walk (others : List Ent) (e : Ent) (amount : ℚ) (m : ℤ)
    (hm : ⌊amount + e.yr⌋ = m) :
    move_y others e amount =
      walkY others (psign m) m.natAbs { e with yr := amount + e.yr - m } := by
  simp [move_y, hm]

/-- With no other entities in the scene there is never a solid collision,
so the walk commits every step. -/
lemma walkX_nil (dir : ℤ) :
    ∀ (n : ℕ) (e : Ent), walkX [] dir n e = { e with x := e.x + dir * n } := by
  intro n
  induction n with
  | zero => intro e; simp [walkX]
  | succ n ih =>
    intro e
    rw [show walkX [] dir (n + 1) e = walkX [] dir n { e with x := e.x + dir } by
      simp [walkX, solidCollisionAt]]
    rw [ih]
    simp only [Ent.mk.injEq]
    refine ⟨?_, by simp⟩
    push_cast
    ring

/-- Claim C1: for every entity and movement amount, if a solid, active,
collision-enabled entity first blocks the path at integer distance `k`
smaller than the requested integer step count, then `move_x` (resp.
`move_y`) stops the mover exactly adjacent to that first blocker — `k - 1`
pixels advanced in the sign direction — never moving past it, no matter
how large the amount of the single call is. -/
theorem move_stops_adjacent_to_first_blocker
    (e : Ent) (others : List Ent) (amount : ℚ) (k : ℕ) (mx my : ℤ)
    (hmx : ⌊amount + e.xr⌋ = mx) (hmy : ⌊amount + e.yr⌋ = my)
    (hk : 0 < k)
    (hkx : k < mx.natAbs)
    (hbx : solidCollisionAt e others (e.x + psign mx * k) e.y = true)
    (hfx : ∀ j : ℕ, j < k → 0 < j →
      solidCollisionAt e others (e.x + psign mx * j) e.y = false)
    (hky : k < my.natAbs)
    (hby : solidCollisionAt e others e.x (e.y + psign my * k) = true)
    (hfy : ∀ j : ℕ, j < k → 0 < j →
      solidCollisionAt e others e.x (e.y + psign my * j) = false) :
    (move_x others e amount).x = e.x + psign mx * ((k : ℤ) - 1) ∧
      (move_y others e amount).y = e.y + psign my * ((k : ℤ) - 1) := by
  rw [move_x_eq_walk others e amount mx hmx, move_y_eq_walk others e amount my hmy]
  constructor
  · have h := walkX_first_block others (psign mx) k mx.natAbs
      { e with xr := amount + e.xr - mx } hk (le_of_lt hkx)
      (by simpa [solidCollisionAt_set_xr] using hbx)
      (by intro j hj hj0; simpa [solidCollisionAt_set_xr] using hfx j hj hj0)
    exact h.1
  · have h := walkY_first_block others (psign my) k my.natAbs
      { e with yr := amount + e.yr - my } hk (le_of_lt hky)
      (by simpa [solidCollisionAt_set_yr] using hby)
      (by intro j hj hj0; simpa [solidCollisionAt_set_yr] using hfy j hj hj0)
    exact h.1

theorem move_stops_adjacent_to_first_blocker_witness :
    (move_x wOthers wMover 5).x = 1 ∧ (move_y wOthers wMover 5).y = 1 := by
  have h := move_stops_adjacent_to_first_blocker wMover wOthers 5 2 5 5
    (by simp [wMover]) (by simp [wMover]) (by decide) (by decide) (by decide)
    (by decide) (by decide) (by decide) (by decide)
  simpa [wMover, psign] using h

/-- Claim C5: a `move_x` blocked by a solid collision at a candidate
position leaves the X sub-pixel remainder exactly 0 (no fractional
progress toward the blocked move is retained); symmetrically `move_y`
and the Y remainder. -/
theorem blocked_move_zeroes_remainder
    (e : Ent) (others : List Ent) (amount : ℚ) (k : ℕ) (mx my : ℤ)
    (hmx : ⌊amount + e.xr⌋ = mx) (hmy : ⌊amount + e.yr⌋ = my)
    (hk : 0 < k)
    (hkx : k ≤ mx.natAbs)
    (hbx : solidCollisionAt e others (e.x + psign mx * k) e.y = true)
    (hfx : ∀ j : ℕ, j < k → 0 < j →
      solidCollisionAt e others (e.x + psign mx * j) e.y = false)
    (hky : k ≤ my.natAbs)
    (hby : solidCollisionAt e others e.x (e.y + psign my * k) = true)
    (hfy : ∀ j : ℕ, j < k → 0 < j →
      solidCollisionAt e others e.x (e.y + psign my * j) = false) :
    (move_x others e amount).xr = 0 ∧ (move_y others e amount).yr = 0 := by
  rw [move_x_eq_walk others e amount mx hmx, move_y_eq_walk others e amount my hmy]
  constructor
  · have h := walkX_first_block others (psign mx) k mx.natAbs
      { e with xr := amount + e.xr - mx } hk hkx
      (by simpa [solidCollisionAt_set_xr] using hbx)
      (by intro j hj hj0; simpa [solidCollisionAt_set_xr] using hfx j hj hj0)
    exact h.2
  · have h := walkY_first_block others (psign my) k my.natAbs
      { e with yr := amount + e.yr - my } hk hky
      (by simpa [solidCollisionAt_set_yr] using hby)
      (by intro j hj hj0; simpa [solidCollisionAt_set_yr] using hfy j hj hj0)
    exact h.2

/-- Witness for C5: same configuration as the C1 witness, with a
fractional amount `5/2` so that the remainder would otherwise be `1/2`;
after the blocked moves both remainders are exactly 0. -/
theorem blocked_move_zeroes_remainder_witness :
    (move_x wOthers wMover (5/2)).xr = 0 ∧ (move_y wOthers wMover (5/2)).yr = 0 := by
  exact blocked_move_zeroes_remainder wMover wOthers (5/2) 2 2 2
    (by simp [wMover]; norm_num) (by simp [wMover]; norm_num) (by decide) (by decide)
    (by decide) (by decide) (by decide) (by decide) (by decide)

lemma subpx_one : subpx 1 = ⟨0, 0, 1, 1, 3/10, 0, true, true, false⟩ := by
  show move_x [] subpxE (3/10) = _
  rw [move_x_eq_walk [] subpxE (3/10) 0 (by norm_num [subpxE]), walkX_nil]
  norm_num [subpxE, psign]

lemma subpx_two : subpx 2 = ⟨0, 0, 1, 1, 3/5, 0, true, true, false⟩ := by
  show move_x [] (subpx 1) (3/10) = _
  rw [subpx_one, move_x_eq_walk _ _ (3/10) 0 (by norm_num), walkX_nil]
  norm_num [psign]

lemma subpx_three : subpx 3 = ⟨0, 0, 1, 1, 9/10, 0, true, true, false⟩ := by
  show move_x [] (subpx 2) (3/10) = _
  rw [subpx_two, move_x_eq_walk _ _ (3/10) 0 (by norm_num), walkX_nil]
  norm_num [psign]

lemma subpx_four : subpx 4 = ⟨1, 0, 1, 1, 1/5, 0, true, true, false⟩ := by
  show move_x [] (subpx 3) (3/10) = _
  rw [subpx_three, move_x_eq_walk _ _ (3/10) 1 (by norm_num), walkX_nil]
  norm_num [psign]

lemma subpx_five : subpx 5 = ⟨1, 0, 1, 1, 1/2, 0, true, true, false⟩ := by
  show move_x [] (subpx 4) (3/10) = _
  rw [subpx_four, move_x_eq_walk _ _ (3/10) 0 (by norm_num), walkX_nil]
  norm_num [psign]

/-- Claim C10: starting from a zero X remainder with no obstacles, five
successive `move_x(0.3)` calls move the entity exactly 1 pixel net; the
single integer position change happens on the fourth call (the first at
which the accumulated remainder plus the new amount reaches 1), and the
fractional remainder persists across calls
(`0.3, 0.6, 0.9, 0.2, 0.5`). -/
theorem five_small_moves_net_one_pixel :
    (subpx 1).x = 0 ∧ (subpx 2).x = 0 ∧ (subpx 3).x = 0 ∧
      (subpx 4).x = 1 ∧ (subpx 5).x = 1 ∧
      (subpx 1).xr = 3/10 ∧ (subpx 2).xr = 3/5 ∧ (subpx 3).xr = 9/10 ∧
      (subpx 4).xr = 1/5 ∧ (subpx 5).xr = 1/2 := by
  rw [subpx_one, subpx_two, subpx_three, subpx_four, subpx_five]
  norm_num

/-- Claim C2 evaluated at the failing input: the duplicate-name add after
promotion logs no error and is not dropped — afterwards two entities named
"a" are live and the name map silently points at the second one. -/
theorem duplicate_name_after_promotion_is_accepted :
    addLogsError sDup2 1 = false ∧
      sDup4.entity_list = [0, 1] ∧
      (sDup4.states 0).name = "a" ∧ (sDup4.states 1).name = "a" ∧
      mapGet sDup4.entity_map "a" = some 1 := by
  decide

/-- Claim C3 evaluated at the failing input: after removing the only
entity, the live list is empty but the draw list holds the removed entity
twice (its original entry plus the one the remove loop appended), instead
of holding exactly the live entities. -/
theorem removed_entity_appended_to_draw_list :
    sRem2.entity_list = [0] ∧ sRem2.entity_draw_list = [0] ∧
      sRem4.entity_list = [] ∧ sRem4.entity_draw_list = [0, 0] := by
  decide

/-- Counterexample to claim C4 as stated: with Z values {5, -3, 0} the
sorted draw list is *not* in the order [-3, 0, 5]. -/
theorem draw_list_order_counterexample :
    sZ.entity_draw_list.map (fun i => (sZ.states i).z) ≠ [-3, 0, 5] := by
  decide

lemma mem_insertZDesc (st : ℕ → EEnt) (i : ℕ) :
    ∀ (l : List ℕ) (a : ℕ), a ∈ insertZDesc st i l → a = i ∨ a ∈ l := by
  intro l
  induction l with
  | nil => intro a ha; simpa [insertZDesc] using ha
  | cons j l ih =>
    intro a ha
    simp only [insertZDesc] at ha
    split at ha
    · rcases List.mem_cons.mp ha with rfl | hb
      · exact Or.inl rfl
      · exact Or.inr hb
    · rcases List.mem_cons.mp ha with rfl | hb
      · exact Or.inr (List.mem_cons_self _ _)
      · rcases ih a hb with rfl | hb'
        · exact Or.inl rfl
        · exact Or.inr (List.mem_cons_of_mem _ hb')

lemma pairwise_insertZDesc (st : ℕ → EEnt) (i : ℕ) :
    ∀ l : List ℕ, l.Pairwise (fun a b => (st b).z ≤ (st a).z) →
      (insertZDesc st i l).Pairwise (fun a b => (st b).z ≤ (st a).z) := by
  intro l
  induction l with
  | nil => intro _; simp [insertZDesc]
  | cons j l ih =>
    intro h
    rw [List.pairwise_cons] at h
    obtain ⟨hj, hl⟩ := h
    by_cases hz : (st j).z ≤ (st i).z
    · rw [show insertZDesc st i (j :: l) = i :: j :: l by simp [insertZDesc, hz]]
      refine List.pairwise_cons.mpr ⟨?_, List.pairwise_cons.mpr ⟨hj, hl⟩⟩
      intro b hb
      rcases List.mem_cons.mp hb with rfl | hb
      · exact hz
      · exact le_trans (hj b hb) hz
    · rw [show insertZDesc st i (j :: l) = j :: insertZDesc st i l by
        simp [insertZDesc, hz]]
      refine List.pairwise_cons.mpr ⟨?_, ih hl⟩
      intro b hb
      rcases mem_insertZDesc st i l b hb with rfl | hb'
      · exact le_of_lt (lt_of_not_le hz)
      · exact hj b hb'

/-- The draw-list sort produces a Z-descending list. -/
lemma sortZDesc_pairwise (st : ℕ → EEnt) (l : List ℕ) :
    (sortZDesc st l).Pairwise (fun a b => (st b).z ≤ (st a).z) := by
  induction l with
  | nil => simp [sortZDesc]
  | cons a l ih => exact pairwise_insertZDesc st a (sortZDesc st l) ih

/-- Claim C4 as amended: with Z values {5, -3, 0} the sorted draw list is
in the order [5, 0, -3] — the sort key is the Z value descending, so
Z = 5 is drawn first (behind) and Z = -3 last (in front) — and in general
the draw-list sort always yields a Z-descending sequence. -/
theorem draw_list_sorted_z_descending :
    sZ.entity_draw_list.map (fun i => (sZ.states i).z) = [5, 0, -3] ∧
      ∀ (st : ℕ → EEnt) (l : List ℕ),
        (sortZDesc st l).Pairwise (fun a b => (st b).z ≤ (st a).z) :=
  ⟨by decide, sortZDesc_pairwise⟩

/-! #### Claim C6 — mid-pass adds are deferred to the next cycle

Characterizations of the `update_list` phases, then the theorem. -/
lemma addStep_proj (t : ELState) (j : ℕ) :
    (addStep t j).entity_list = t.entity_list ++ [j] ∧
      (addStep t j).to_add = t.to_add ∧
      (addStep t j).to_remove = t.to_remove ∧
      (addStep t j).states = t.states ∧
      (addStep t j).added_while_updating = t.added_while_updating ∧
      (addStep t j).removed_while_updating = t.removed_while_updating := by
  simp only [addStep, ELState.set_active]
  split <;> simp

lemma addStep_to_activate_mem (t : ELState) (j a : ℕ) :
    a ∈ (addStep t j).to_activate ↔ a ∈ t.to_activate ∨ a = j := by
  simp only [addStep, ELState.set_active]
  split
  · rename_i hc
    simp only []
    constructor
    · exact fun h => Or.inl h
    · rintro (h | rfl)
      · exact h
      · simpa using hc
  · simp

lemma addStep_to_deactivate_sub (t : ELState) (j a : ℕ) :
    a ∈ (addStep t j).to_deactivate → a ∈ t.to_deactivate := by
  simp only [addStep, ELState.set_active]
  split <;> (intro h; exact List.mem_of_mem_erase (by simpa using h))

lemma addFold_proj (L : List ℕ) :
    ∀ t : ELState,
      (L.foldl addStep t).entity_list = t.entity_list ++ L ∧
        (L.foldl addStep t).to_add = t.to_add ∧
        (L.foldl addStep t).to_remove = t.to_remove ∧
        (L.foldl addStep t).states = t.states ∧
        (L.foldl addStep t).added_while_updating = t.added_while_updating ∧
        (L.foldl addStep t).removed_while_updating = t.removed_while_updating := by
  induction L with
  | nil => intro t; simp
  | cons j L ih =>
    intro t
    obtain ⟨h1, h2, h3, h4, h5, h6⟩ := addStep_proj t j
    obtain ⟨g1, g2, g3, g4, g5, g6⟩ := ih (addStep t j)
    simp only [List.foldl_cons]
    exact ⟨by rw [g1, h1]; simp, by rw [g2, h2], by rw [g3, h3],
           by rw [g4, h4], by rw [g5, h5], by rw [g6, h6]⟩

lemma addFold_to_activate_mem (L : List ℕ) :
    ∀ (t : ELState) (a : ℕ),
      a ∈ (L.foldl addStep t).to_activate ↔ a ∈ t.to_activate ∨ a ∈ L := by
  induction L with
  | nil => intro t a; simp
  | cons j L ih =>
    intro t a
    simp only [List.foldl_cons]
    rw [ih (addStep t j) a, addStep_to_activate_mem]
    simp only [List.mem_cons]
    tauto

lemma addFold_to_deactivate_sub (L : List ℕ) :
    ∀ (t : ELState) (a : ℕ),
      a ∈ (L.foldl addStep t).to_deactivate → a ∈ t.to_deactivate := by
  induction L with
  | nil => intro t a h; simpa using h
  | cons j L ih =>
    intro t a h
    simp only [List.foldl_cons] at h
    exact addStep_to_deactivate_sub t j a (ih (addStep t j) a h)

lemma removeStep_proj (t : ELState) (j : ℕ) :
    (removeStep t j).entity_list = t.entity_list.erase j ∧
      (removeStep t j).to_add = t.to_add ∧
      (removeStep t j).states = t.states ∧
      (removeStep t j).added_while_updating = t.added_while_updating ∧
      (removeStep t j).removed_while_updating = t.removed_while_updating ∧
      (removeStep t j).to_activate = t.to_activate.erase j := by
  simp only [removeStep, ELState.set_inactive]
  split <;> simp

lemma removeStep_to_deactivate_mem (t : ELState) (j a : ℕ) :
    a ∈ (removeStep t j).to_deactivate ↔ a ∈ t.to_deactivate ∨ a = j := by
  simp only [removeStep, ELState.set_inactive]
  split
  · rename_i hc
    simp only []
    constructor
    · exact fun h => Or.inl h
    · rintro (h | rfl)
      · exact h
      · simpa using hc
  · simp

lemma removeFold_proj (L : List ℕ) :
    ∀ t : ELState,
      (L.foldl removeStep t).entity_list =
          L.foldl (fun l j => l.erase j) t.entity_list ∧
        (L.foldl removeStep t).to_add = t.to_add ∧
        (L.foldl removeStep t).states = t.states ∧
        (L.foldl removeStep t).added_while_updating = t.added_while_updating ∧
        (L.foldl removeStep t).removed_while_updating = t.removed_while_updating := by
  induction L with
  | nil => intro t; simp
  | cons j L ih =>
    intro t
    obtain ⟨h1, h2, h3, h4, h5, _⟩ := removeStep_proj t j
    obtain ⟨g1, g2, g3, g4, g5⟩ := ih (removeStep t j)
    simp only [List.foldl_cons]
    exact ⟨by rw [g1, h1], by rw [g2, h2], by rw [g3, h3],
           by rw [g4, h4], by rw [g5, h5]⟩

lemma removeFold_to_activate_mem (L : List ℕ) :
    ∀ (t : ELState) (a : ℕ), a ∉ L →
      (a ∈ (L.foldl removeStep t).to_activate ↔ a ∈ t.to_activate) := by
  induction L with
  | nil => intro t a _; simp
  | cons j L ih =>
    intro t a ha
    have haj : a ≠ j := fun h => ha (h ▸ List.mem_cons_self j L)
    have haL : a ∉ L := fun h => ha (List.mem_cons_of_mem j h)
    simp only [List.foldl_cons]
    rw [ih (removeStep t j) a haL, (removeStep_proj t j).2.2.2.2.2]
    exact List.mem_erase_of_ne haj

lemma removeFold_to_deactivate_not_mem (L : List ℕ) :
    ∀ (t : ELState) (a : ℕ), a ∉ L → a ∉ t.to_deactivate →
      a ∉ (L.foldl removeStep t).to_deactivate := by
  induction L with
  | nil => intro t a _ h; simpa using h
  | cons j L ih =>
    intro t a ha ht
    have haj : a ≠ j := fun h => ha (h ▸ List.mem_cons_self j L)
    have haL : a ∉ L := fun h => ha (List.mem_cons_of_mem j h)
    simp only [List.foldl_cons]
    refine ih (removeStep t j) a haL ?_
    rw [removeStep_to_deactivate_mem]
    rintro (h | rfl)
    · exact ht h
    · exact haj rfl

lemma count_foldl_erase (L : List ℕ) :
    ∀ (l : List ℕ) (a : ℕ), a ∉ L →
      (L.foldl (fun l j => l.erase j) l).count a = l.count a := by
  induction L with
  | nil => intro l a _; rfl
  | cons j L ih =>
    intro l a ha
    have haj : a ≠ j := fun h => ha (h ▸ List.mem_cons_self j L)
    have haL : a ∉ L := fun h => ha (List.mem_cons_of_mem j h)
    simp only [List.foldl_cons]
    rw [ih (l.erase j) a haL, List.count_erase_of_ne haj]

lemma statesFold_eq (f : (ℕ → EEnt) → ℕ → (ℕ → EEnt)) (L : List ℕ) :
    ∀ t : ELState,
      L.foldl (fun t j => { t with states := f t.states j }) t =
        { t with states := L.foldl f t.states } := by
  induction L with
  | nil => intro t; rfl
  | cons j L ih =>
    intro t
    simp only [List.foldl_cons]
    rw [ih]

lemma setActiveFold_apply (b : Bool) (L : List ℕ) :
    ∀ (st : ℕ → EEnt) (i : ℕ),
      (L.foldl (fun g j => setActiveFlag g j b) st) i =
        if i ∈ L then { st i with active := b } else st i := by
  induction L with
  | nil => intro st i; simp
  | cons j L ih =>
    intro st i
    simp only [List.foldl_cons]
    rw [ih]
    by_cases hij : i = j
    · subst hij
      by_cases hiL : i ∈ L <;> simp [hiL, setActiveFlag]
    · by_cases hiL : i ∈ L <;>
        simp [hiL, hij, setActiveFlag, List.mem_cons]

lemma setStartedFold_active (L : List ℕ) :
    ∀ (st : ℕ → EEnt) (i : ℕ),
      ((L.foldl setStartedFlag st) i).active = (st i).active := by
  induction L with
  | nil => intro st i; rfl
  | cons j L ih =>
    intro st i
    simp only [List.foldl_cons]
    rw [ih]
    by_cases hij : i = j
    · subst hij; simp [setStartedFlag]
    · simp [setStartedFlag, hij]

lemma maybeSortPhase_proj (s : ELState) :
    (maybeSortPhase s).entity_list = s.entity_list ∧
      (maybeSortPhase s).states = s.states ∧
      (maybeSortPhase s).added_while_updating = s.added_while_updating ∧
      (maybeSortPhase s).removed_while_updating = s.removed_while_updating := by
  unfold maybeSortPhase ELState.sort_draw_list
  split <;> simp

lemma resubmitPhase_of_empty (s : ELState)
    (h7 : s.added_while_updating = []) (h8 : s.removed_while_updating = []) :
    resubmitPhase s = s := by
  simp [resubmitPhase, h7, h8]

lemma count_filter_of_pred (p : ℕ → Bool) (l : List ℕ) (a : ℕ) (hp : p a = true) :
    (l.filter p).count a = l.count a := by
  induction l with
  | nil => rfl
  | cons b l ih =>
    by_cases hb : a = b
    · subst hb
      simp [List.filter_cons, hp, List.count_cons, ih]
    · rw [List.filter_cons]
      split
      · rw [List.count_cons, List.count_cons, ih]
      · rw [ih, List.count_cons]
        simp
        exact fun h => absurd h.symm hb

lemma mem_updateTargets (paused : Bool) (s : ELState) (i : ℕ) :
    i ∈ updateTargets paused s ↔
      i ∈ s.entity_list ∧
        ((s.states i).active && !(paused && (s.states i).pausable)) = true := by
  simp [updateTargets, List.mem_filter]

/-- Claim C6: an entity `i` added to the EntityList from inside an
entity's `update()` callback (so while no list-update pass is running:
`add` queues it into `_to_add`) is not among the entities the current
update pass invokes; after the next `update_list()` it is live exactly
once and is among the entities the next update pass invokes — so no pass
observes a partially mutated list and no pass processes the newcomer
twice. -/
theorem mid_pass_add_deferred_to_next_cycle
    (s : ELState) (paused : Bool) (i : ℕ)
    (h1 : s.is_updating = false)
    (h2 : i ∉ s.entity_list)
    (h3 : (s.states i).name ∉ s.name_to_add)
    (h4 : i ∉ s.to_add)
    (h5 : i ∉ s.to_remove)
    (h6 : i ∉ s.to_deactivate)
    (h7 : s.added_while_updating = [])
    (h8 : s.removed_while_updating = []) :
    i ∉ updateTargets paused s ∧
      ((s.add i).update_list).entity_list.count i = 1 ∧
      i ∈ updateTargets false ((s.add i).update_list) ∧
      (updateTargets false ((s.add i).update_list)).count i = 1 := by
  -- the mid-pass add is not updated in the current pass
  have hnotnow : i ∉ updateTargets paused s := fun hmem =>
    h2 ((mem_updateTargets paused s i).mp hmem).1
  -- `add` queues the entity
  have hsa : s.add i =
      { s with to_add := s.to_add ++ [i],
               name_to_add := s.name_to_add ++ [(s.states i).name],
               entity_draw_list_needs_sorting := true } := by
    simp [ELState.add, h1, h3, h2, h4]
  -- walk through the phases of `update_list`
  set s1 : ELState := { s.add i with is_updating := true } with hs1
  have hs1add : s1.to_add = s.to_add ++ [i] := by rw [hs1, hsa]
  have hs1rem : s1.to_remove = s.to_remove := by rw [hs1, hsa]
  have hs1el : s1.entity_list = s.entity_list := by rw [hs1, hsa]
  have hs1st : s1.states = s.states := by rw [hs1, hsa]
  have hs1act : s1.to_activate = s.to_activate := by rw [hs1, hsa]
  have hs1de : s1.to_deactivate = s.to_deactivate := by rw [hs1, hsa]
  have hs1aw : s1.added_while_updating = [] := by rw [hs1, hsa]; exact h7
  have hs1rw : s1.removed_while_updating = [] := by rw [hs1, hsa]; exact h8
  -- add phase
  set sA : ELState := addPhase s1 with hsA
  obtain ⟨hAel, hAadd, hArem, hAst, hAaw, hArw⟩ := addFold_proj s1.to_add s1
  rw [← addPhase] at hAel hAadd hArem hAst hAaw hArw
  rw [← hsA] at hAel hAadd hArem hAst hAaw hArw
  have hAact : i ∈ sA.to_activate := by
    rw [hsA, addPhase, addFold_to_activate_mem]
    exact Or.inr (by rw [hs1add]; simp)
  have hAde : i ∉ sA.to_deactivate := fun hmem =>
    h6 (by rw [← hs1de]; exact addFold_to_deactivate_sub s1.to_add s1 i (by rwa [hsA, addPhase] at hmem))
  -- remove phase
  set sR : ELState := removePhase sA with hsR
  obtain ⟨hRel, hRadd, hRst, hRaw, hRrw⟩ := removeFold_proj sA.to_remove sA
  rw [← removePhase, ← hsR] at hRel hRadd hRst hRaw hRrw
  have hRcount : sR.entity_list.count i = 1 := by
    rw [hRel, hArem, hs1rem]
    rw [count_foldl_erase s.to_remove _ i h5]
    rw [hAel, hs1el, hs1add]
    have hc2 : s.entity_list.count i = 0 := List.count_eq_zero.mpr h2
    have hc4 : s.to_add.count i = 0 := List.count_eq_zero.mpr h4
    simp [List.count_append, hc2, hc4]
  have hRact : i ∈ sR.to_activate := by
    rw [hsR, removePhase]
    rw [removeFold_to_activate_mem sA.to_remove sA i (by rw [hArem, hs1rem]; exact h5)]
    exact hAact
  have hRde : i ∉ sR.to_deactivate := by
    rw [hsR, removePhase]
    exact removeFold_to_deactivate_not_mem sA.to_remove sA i
      (by rw [hArem, hs1rem]; exact h5) hAde
  -- activate phase
  set sAct : ELState := activatePhase sR with hsAct
  have hActeq : sAct =
      { sR with states := sR.to_activate.foldl (fun g j => setActiveFlag g j true) sR.states } := by
    rw [hsAct]
    exact statesFold_eq (fun g j => setActiveFlag g j true) sR.to_activate sR
  have hActactive : (sAct.states i).active = true := by
    rw [hActeq]
    simp only []
    rw [setActiveFold_apply true sR.to_activate sR.states i]
    simp [hRact]
  -- start phase
  set sSt : ELState := startPhase sAct with hsSt
  have hSteq : sSt =
      { sAct with states := sAct.to_add.foldl setStartedFlag sAct.states } := by
    rw [hsSt]
    exact statesFold_eq setStartedFlag sAct.to_add sAct
  have hStactive : (sSt.states i).active = true := by
    rw [hSteq]
    simp only []
    rw [setStartedFold_active]
    exact hActactive
  -- deactivate phase
  set sDe : ELState := deactivatePhase sSt with hsDe
  have hDeeq : sDe =
      { sSt with states := sSt.to_deactivate.foldl (fun g j => setActiveFlag g j false) sSt.states } := by
    rw [hsDe]
    exact statesFold_eq (fun g j => setActiveFlag g j false) sSt.to_deactivate sSt
  have hStde : sSt.to_deactivate = sR.to_deactivate := by
    rw [hSteq, hActeq]
  have hDeactive : (sDe.states i).active = true := by
    rw [hDeeq]
    simp only []
    rw [setActiveFold_apply false sSt.to_deactivate sSt.states i]
    rw [hStde]
    simp [hRde, hStactive]
  have hDeel : sDe.entity_list = sR.entity_list := by
    rw [hDeeq, hSteq, hActeq]
  have hDeaw : sDe.added_while_updating = [] := by
    rw [hDeeq, hSteq, hActeq]
    simp only []
    rw [hRaw, hAaw, hs1aw]
  have hDerw : sDe.removed_while_updating = [] := by
    rw [hDeeq, hSteq, hActeq]
    simp only []
    rw [hRrw, hArw, hs1rw]
  -- sort, clear, resubmit
  set sSo : ELState := maybeSortPhase sDe with hsSo
  obtain ⟨hSoel, hSost, hSoaw, hSorw⟩ := maybeSortPhase_proj sDe
  rw [← hsSo] at hSoel hSost hSoaw hSorw
  set sCl : ELState := clearPhase sSo with hsCl
  have hClel : sCl.entity_list = sSo.entity_list := by rw [hsCl, clearPhase]
  have hClst : sCl.states = sSo.states := by rw [hsCl, clearPhase]
  have hClaw : sCl.added_while_updating = [] := by rw [hsCl, clearPhase]; simp only []; rw [hSoaw, hDeaw]
  have hClrw : sCl.removed_while_updating = [] := by rw [hsCl, clearPhase]; simp only []; rw [hSorw, hDerw]
  have hfinal : (s.add i).update_list = sCl := by
    rw [ELState.update_list, resubmitPhase_of_empty sCl hClaw hClrw, hsCl, hsSo,
        hsDe, hsSt, hsAct, hsR, hsA, hs1]
  -- assemble the conclusions
  have hcount : ((s.add i).update_list).entity_list.count i = 1 := by
    rw [hfinal, hClel, hSoel, hDeel]
    exact hRcount
  have hactive : (((s.add i).update_list).states i).active = true := by
    rw [hfinal, hClst, hSost]
    exact hDeactive
  have hmem : i ∈ ((s.add i).update_list).entity_list :=
    List.count_pos_iff.mp (by rw [hcount]; norm_num)
  have hpred : ((((s.add i).update_list).states i).active &&
      !(false && (((s.add i).update_list).states i).pausable)) = true := by
    rw [hactive]
    simp
  refine ⟨hnotnow, hcount, ?_, ?_⟩
  · exact (mem_updateTargets false _ i).mpr ⟨hmem, hpred⟩
  · rw [updateTargets]
    exact (count_filter_of_pred
      (fun j => (((s.add i).update_list).states j).active &&
        !(false && (((s.add i).update_list).states j).pausable))
      ((s.add i).update_list).entity_list i hpred).trans hcount

/-- Witness for C6: in a scene with entity 0 live, entity 1 added
mid-pass is skipped by the current pass, and is live and updated exactly
once from the next cycle. -/
theorem mid_pass_add_deferred_to_next_cycle_witness :
    1 ∉ updateTargets false sW ∧
      ((sW.add 1).update_list).entity_list.count 1 = 1 ∧
      1 ∈ updateTargets false ((sW.add 1).update_list) ∧
      (updateTargets false ((sW.add 1).update_list)).count 1 = 1 :=
  mid_pass_add_deferred_to_next_cycle sW false 1 (by decide) (by decide) (by decide)
    (by decide) (by decide) (by decide) (by decide) (by decide)

/-- Claim C9: `CameraList.add` raises if and only if some camera already
in the list or already queued to be added has the same name or the same
draw order; on a raising add the whole state (camera list, name map, and
every pending queue) is left unchanged, and a non-duplicate add never
raises. -/
theorem camera_add_raises_iff_duplicate (s : CameraListState) (c : Cam) :
    ((cameraListAdd s c).2 = true ↔
      ∃ c' ∈ s.camera_list ++ s.to_add,
        c'.name = c.name ∨ c'.draw_order = c.draw_order) ∧
      ((cameraListAdd s c).2 = true → (cameraListAdd s c).1 = s) := by
  by_cases hn : dupName s c = true
  · obtain ⟨c', hc', he⟩ := List.any_eq_true.mp hn
    have heq : cameraListAdd s c = (s, true) := by simp [cameraListAdd, hn]
    rw [heq]
    exact ⟨⟨fun _ => ⟨c', hc', Or.inl (Eq.symm (by simpa using he))⟩,
      fun _ => rfl⟩, fun _ => rfl⟩
  · by_cases ho : dupOrder s c = true
    · obtain ⟨c', hc', he⟩ := List.any_eq_true.mp ho
      have heq : cameraListAdd s c = (s, true) := by simp [cameraListAdd, hn, ho]
      rw [heq]
      exact ⟨⟨fun _ => ⟨c', hc', Or.inr (Eq.symm (by simpa using he))⟩,
        fun _ => rfl⟩, fun _ => rfl⟩
    · have hn' : dupName s c = false := by simpa using hn
      have ho' : dupOrder s c = false := by simpa using ho
      have hsnd : (cameraListAdd s c).2 = false := by
        simp only [cameraListAdd, hn', ho', Bool.false_eq_true, if_false]
        split <;> rfl
      refine ⟨⟨fun hr => ?_, fun hdup => ?_⟩, fun hr => ?_⟩
      · rw [hsnd] at hr; simp at hr
      · exfalso
        obtain ⟨c', hc', he | he⟩ := hdup
        · exact absurd (List.any_eq_true.mpr ⟨c', hc', by simpa using he.symm⟩) hn
        · exact absurd (List.any_eq_true.mpr ⟨c', hc', by simpa using he.symm⟩) ho
      · rw [hsnd] at hr; simp at hr

theorem camera_add_raises_iff_duplicate_witness :
    ((cameraListAdd camListW camMainDup).2 = true ↔
      ∃ c' ∈ camListW.camera_list ++ camListW.to_add,
        c'.name = camMainDup.name ∨ c'.draw_order = camMainDup.draw_order) ∧
      ((cameraListAdd camListW camMainDup).2 = true →
        (cameraListAdd camListW camMainDup).1 = camListW) :=
  camera_add_raises_iff_duplicate camListW camMainDup

/-- Claim C8: for every window viewport size and camera resolution (each
at least 1x1) and every resize mode, with pixel-perfect scaling enabled
both computed scale factors are whole integers that are at least 1. -/
theorem pixel_perfect_scale_is_positive_integer
    (mode : ResizeMode) (vw vh rw rh : ℚ)
    (_hvw : 1 ≤ vw) (_hvh : 1 ≤ vh) (_hrw : 1 ≤ rw) (_hrh : 1 ≤ rh) :
    ∃ nx ny : ℤ, 1 ≤ nx ∧ 1 ≤ ny ∧
      resetScale mode true vw vh rw rh = ((nx : ℚ), (ny : ℚ)) := by
  unfold resetScale
  simp only [if_true]
  refine ⟨_, _, ?_, ?_, rfl⟩ <;> (split <;> omega)

/-- Witness for C8: a 1280x720 window with a 320x180 camera in FIT mode
gives the integer scale pair (4, 4). -/
theorem pixel_perfect_scale_is_positive_integer_witness :
    (1 ≤ (1280 : ℚ)) ∧ (1 ≤ (720 : ℚ)) ∧ (1 ≤ (320 : ℚ)) ∧ (1 ≤ (180 : ℚ)) ∧
      ∃ nx ny : ℤ, 1 ≤ nx ∧ 1 ≤ ny ∧
        resetScale .rfit true 1280 720 320 180 = ((nx : ℚ), (ny : ℚ)) :=
  ⟨by norm_num, by norm_num, by norm_num, by norm_num,
    pixel_perfect_scale_is_positive_integer .rfit 1280 720 320 180
      (by norm_num) (by norm_num) (by norm_num) (by norm_num)⟩

lemma checkAt_comm (a b : CEnt) : checkAt a b = checkAt b a := by
  unfold checkAt
  rw [rectIntersectsRect_comm]
  cases a.active <;> cases b.active <;> cases a.collisions_enabled <;>
    cases b.collisions_enabled <;> simp

lemma staticsEq_refl (b : CEnt) : StaticsEq b b :=
  ⟨rfl, rfl, rfl, rfl, rfl, rfl, rfl⟩

lemma staticsEq_trans {a b c : CEnt} (h1 : StaticsEq a b) (h2 : StaticsEq b c) :
    StaticsEq a c := by
  obtain ⟨x1, y1, w1, h1', a1, c1, p1⟩ := h1
  obtain ⟨x2, y2, w2, h2', a2, c2, p2⟩ := h2
  exact ⟨x1.trans x2, y1.trans y2, w1.trans w2, h1'.trans h2',
    a1.trans a2, c1.trans c2, p1.trans p2⟩

lemma checkAt_staticsEq (a b b' : CEnt) (h : StaticsEq b b') :
    checkAt a b = checkAt a b' := by
  obtain ⟨h1, h2, h3, h4, h5, h6, _⟩ := h
  unfold checkAt
  rw [h1, h2, h3, h4, h5, h6]

lemma registerCollision_lastFrame (e : CEnt) (j : ℕ) :
    (registerCollision e j).lastFrame = e.lastFrame := by
  unfold registerCollision; split <;> rfl

lemma registerCollision_thisFrame (e : CEnt) (j : ℕ) :
    (registerCollision e j).thisFrame = insert j e.thisFrame := by
  unfold registerCollision
  split
  · rename_i h
    exact (Finset.insert_eq_self.mpr h).symm
  · rfl

lemma registerCollision_staticsEq (e : CEnt) (j : ℕ) :
    StaticsEq (registerCollision e j) e := by
  unfold registerCollision
  split
  · exact staticsEq_refl e
  · exact ⟨rfl, rfl, rfl, rfl, rfl, rfl, rfl⟩

lemma mutualRegister_mem (w : ℕ → CEnt) (p : ℕ × ℕ) (i a : ℕ) :
    a ∈ ((mutualRegister w p) i).thisFrame ↔
      a ∈ (w i).thisFrame ∨ (i = p.1 ∧ a = p.2) ∨ (i = p.2 ∧ a = p.1) := by
  rcases p with ⟨u, v⟩
  unfold mutualRegister wupd
  dsimp only
  by_cases hiv : i = v
  · rw [if_pos hiv]
    by_cases hiu : i = u
    · rw [if_pos hiu]
      subst hiv; subst hiu
      simp only [registerCollision_thisFrame, Finset.mem_insert]
      tauto
    · rw [if_neg hiu]
      subst hiv
      simp only [registerCollision_thisFrame, Finset.mem_insert, hiu]
      tauto
  · rw [if_neg hiv]
    by_cases hiu : i = u
    · rw [if_pos hiu]
      subst hiu
      simp only [registerCollision_thisFrame, Finset.mem_insert, hiv]
      tauto
    · rw [if_neg hiu]
      simp [hiv, hiu]

lemma mutualRegister_lastFrame (w : ℕ → CEnt) (p : ℕ × ℕ) (i : ℕ) :
    ((mutualRegister w p) i).lastFrame = (w i).lastFrame := by
  rcases p with ⟨u, v⟩
  unfold mutualRegister wupd
  dsimp only
  by_cases hiv : i = v
  · rw [if_pos hiv, registerCollision_lastFrame]
    by_cases hiu : i = u
    · rw [if_pos hiu, registerCollision_lastFrame]
    · rw [if_neg hiu]
  · rw [if_neg hiv]
    by_cases hiu : i = u
    · rw [if_pos hiu, registerCollision_lastFrame]
    · rw [if_neg hiu]

lemma mutualRegister_staticsEq (w : ℕ → CEnt) (p : ℕ × ℕ) (i : ℕ) :
    StaticsEq ((mutualRegister w p) i) (w i) := by
  rcases p with ⟨u, v⟩
  unfold mutualRegister wupd
  dsimp only
  by_cases hiv : i = v
  · rw [if_pos hiv]
    by_cases hiu : i = u
    · rw [if_pos hiu]
      exact staticsEq_trans (registerCollision_staticsEq _ _)
        (registerCollision_staticsEq _ _)
    · rw [if_neg hiu]
      exact registerCollision_staticsEq _ _
  · rw [if_neg hiv]
    by_cases hiu : i = u
    · rw [if_pos hiu]
      exact registerCollision_staticsEq _ _
    · rw [if_neg hiu]
      exact staticsEq_refl _

lemma mutualRegister_symm (n : ℕ) (w : ℕ → CEnt) (p : ℕ × ℕ)
    (h : SymmThis n w) : SymmThis n (mutualRegister w p) := by
  intro i hi j hj hm
  rw [mutualRegister_mem] at hm
  rw [mutualRegister_mem]
  rcases hm with hm | ⟨rfl, rfl⟩ | ⟨rfl, rfl⟩
  · exact Or.inl (h i hi j hj hm)
  · exact Or.inr (Or.inr ⟨rfl, rfl⟩)
  · exact Or.inr (Or.inl ⟨rfl, rfl⟩)

lemma movePhase_symm (n : ℕ) :
    ∀ (moves : List (ℕ × ℕ)) (w : ℕ → CEnt),
      SymmThis n w → SymmThis n (movePhase w moves) := by
  intro moves
  induction moves with
  | nil => intro w h; exact h
  | cons p ms ih =>
    intro w h
    exact ih (mutualRegister w p) (mutualRegister_symm n w p h)

lemma movePhase_lastFrame :
    ∀ (moves : List (ℕ × ℕ)) (w : ℕ → CEnt) (i : ℕ),
      ((movePhase w moves) i).lastFrame = (w i).lastFrame := by
  intro moves
  induction moves with
  | nil => intro w i; rfl
  | cons p ms ih =>
    intro w i
    rw [show movePhase w (p :: ms) = movePhase (mutualRegister w p) ms from rfl,
        ih (mutualRegister w p) i, mutualRegister_lastFrame]

lemma foldPre_apply (paused : Bool) :
    ∀ (l : List ℕ), l.Nodup → ∀ (w : ℕ → CEnt) (i : ℕ),
      (l.foldl (fun w j => if paused && (w j).pausable then w else wupd w j preUpdate) w) i =
        if i ∈ l ∧ (paused && (w i).pausable) = false then preUpdate (w i) else w i := by
  intro l
  induction l with
  | nil => intro _ w i; simp
  | cons j l ih =>
    intro hnd w i
    obtain ⟨hjl, hnd'⟩ := List.nodup_cons.mp hnd
    rw [List.foldl_cons, ih hnd']
    by_cases hp : (paused && (w j).pausable) = true
    · rw [if_pos hp]
      by_cases hij : i = j
      · subst hij
        simp [hjl, hp]
      · simp [List.mem_cons, hij]
    · rw [if_neg hp]
      by_cases hij : i = j
      · subst hij
        have hp' : (paused && (w i).pausable) = false := by
          revert hp; cases (paused && (w i).pausable) <;> simp
        simp [wupd, hjl, hp', List.mem_cons]
      · simp [wupd, hij, List.mem_cons]

lemma postBody_staticsEq (w : ℕ → CEnt) (e : CEnt) :
    StaticsEq (postBody w e) e :=
  ⟨rfl, rfl, rfl, rfl, rfl, rfl, rfl⟩

lemma postBody_congr (w w' : ℕ → CEnt) (e : CEnt)
    (h : ∀ j, StaticsEq (w j) (w' j)) : postBody w e = postBody w' e := by
  unfold postBody
  have hc : ∀ j, checkAt e (w j) = checkAt e (w' j) :=
    fun j => checkAt_staticsEq e (w j) (w' j) (h j)
  simp only [hc]

lemma foldPost_false :
    ∀ (l : List ℕ), l.Nodup → ∀ (w0 w : ℕ → CEnt),
      (∀ j, StaticsEq (w j) (w0 j)) →
      (∀ j, j ∈ l → w j = w0 j) →
      ∀ i, (l.foldl (postStep false) w) i =
        if i ∈ l then postBody w0 (w0 i) else w i := by
  intro l
  induction l with
  | nil => intro _ w0 w _ _ i; simp
  | cons j l ih =>
    intro hnd w0 w hst horig i
    obtain ⟨hjl, hnd'⟩ := List.nodup_cons.mp hnd
    have hstep : postStep false w j = wupd w j (postBody w) := by
      simp [postStep]
    simp only [List.foldl_cons, hstep]
    have hst' : ∀ k, StaticsEq ((wupd w j (postBody w)) k) (w0 k) := by
      intro k
      unfold wupd
      by_cases hkj : k = j
      · subst hkj
        simp only [if_pos rfl]
        exact staticsEq_trans (postBody_staticsEq w (w k)) (hst k)
      · simp only [hkj, if_false]
        exact hst k
    have horig' : ∀ k, k ∈ l → (wupd w j (postBody w)) k = w0 k := by
      intro k hk
      unfold wupd
      have hkj : ¬(k = j) := fun h => hjl (h ▸ hk)
      simp only [hkj, if_false]
      exact horig k (List.mem_cons_of_mem j hk)
    rw [ih hnd' w0 (wupd w j (postBody w)) hst' horig' i]
    by_cases hil : i ∈ l
    · simp [hil, List.mem_cons]
    · by_cases hij : i = j
      · subst hij
        simp only [hil, if_false, List.mem_cons, true_or, if_pos rfl, wupd,
          if_pos rfl]
        rw [postBody_congr w w0 (w i) hst, horig i (List.mem_cons_self i l)]
      · have : ¬(i ∈ j :: l) := by
          rw [List.mem_cons]
          rintro (rfl | h)
          · exact hij rfl
          · exact hil h
        simp only [hil, if_false, this, wupd, hij]

lemma postPhase_false_apply (n : ℕ) (w : ℕ → CEnt) (i : ℕ) (hi : i < n) :
    (postPhase false n w) i = postBody w (w i) := by
  unfold postPhase
  rw [foldPost_false (List.range n) (List.nodup_range n) w w
    (fun j => staticsEq_refl (w j)) (fun _ _ => rfl) i]
  simp [List.mem_range, hi]

lemma prePhase_false_apply (n : ℕ) (w : ℕ → CEnt) (i : ℕ) (hi : i < n) :
    (prePhase false n w) i = preUpdate (w i) := by
  unfold prePhase
  rw [foldPre_apply false (List.range n) (List.nodup_range n) w i]
  simp [List.mem_range, hi]

/-- Claim C7 as amended: in a frame in which the scene is not paused (so
every entity's collision bookkeeping runs) and entities use the default
AABB collision test, if the collision sets entering the frame are
symmetric, then once the frame's collision processing — movement
registration plus the post-update recheck — completes, the
collisions-this-frame sets are again symmetric: A registered against B
implies B registered against A. -/
theorem collision_sets_symmetric_when_unpaused
    (n : ℕ) (moves : List (ℕ × ℕ)) (w : ℕ → CEnt)
    (hsym : SymmThis n w) :
    SymmThis n (frame false n moves w) := by
  have hw1 : ∀ i, i < n → (prePhase false n w) i = preUpdate (w i) :=
    prePhase_false_apply n w
  have h1sym : SymmThis n (prePhase false n w) := by
    intro i hi j hj hm
    rw [hw1 i hi] at hm
    simp [preUpdate] at hm
  have h2sym : SymmThis n (movePhase (prePhase false n w) moves) :=
    movePhase_symm n moves (prePhase false n w) h1sym
  have h2last : ∀ i, i < n →
      ((movePhase (prePhase false n w) moves) i).lastFrame = (w i).thisFrame := by
    intro i hi
    rw [movePhase_lastFrame moves (prePhase false n w) i, hw1 i hi]
    rfl
  set w2 := movePhase (prePhase false n w) moves with hw2
  intro i hi j hj hm
  rw [show frame false n moves w = postPhase false n w2 from rfl] at hm ⊢
  rw [postPhase_false_apply n w2 i hi] at hm
  rw [postPhase_false_apply n w2 j hj]
  unfold postBody at hm ⊢
  simp only [Finset.mem_union, Finset.mem_filter, Finset.mem_sdiff] at hm ⊢
  rcases hm with hm | ⟨⟨hlast, hnot⟩, hcheck⟩
  · exact Or.inl (h2sym i hi j hj hm)
  · have hji : i ∈ (w2 j).lastFrame := by
      rw [h2last j hj]
      exact hsym i hi j hj (by rwa [h2last i hi] at hlast)
    by_cases hthis : i ∈ (w2 j).thisFrame
    · exact Or.inl hthis
    · refine Or.inr ⟨⟨hji, hthis⟩, ?_⟩
      rw [checkAt_comm]
      exact hcheck

/-- Counterexample to claim C7 as stated: a frame of a paused scene
starts with symmetric collision sets and ends with asymmetric ones
(entity 0 still holds 1, entity 1 no longer holds 0). -/
theorem collision_symmetry_fails_when_paused :
    SymmThis 2 wPause ∧ ¬SymmThis 2 (frame true 2 [] wPause) := by
  constructor
  · decide
  · decide

/-- Witness for the amended C7: the same two entities in an unpaused
frame end symmetric. -/
theorem collision_sets_symmetric_when_unpaused_witness :
    SymmThis 2 wPause ∧ SymmThis 2 (frame false 2 [] wPause) :=
  ⟨by decide, collision_sets_symmetric_when_unpaused 2 [] wPause (by decide)⟩

end LD57
